import Mathlib

/-!
Verification of the long-text voice-cloning pipeline (`voice_clone.py`).

Shallow embedding conventions:
* Text and filesystem paths are `List Char` (Python `str`).
* The filesystem is an association list from paths to file contents plus a
  list of existing directories; `os.path.exists` checks both.
* The external TTS engine (`tts.tts_to_file`), the FFmpeg concat call and the
  FFmpeg audio conversion are oracles passed in as functions; a `none` result
  models the external call raising an exception.
* Python floats that are only stored and compared (generation presets) are
  modelled as rationals.
-/

namespace VoiceClone

/-- Python `str.strip()` whitespace, restricted to the ASCII whitespace
characters (space, tab, newline, carriage return, vertical tab, form feed). -/
def isSp (c : Char) : Bool :=
  c = ' ' || c = '\t' || c = '\n' || c = '\r' || c = '\x0b' || c = '\x0c'

/-- Python `s.strip()` on a list of characters. -/
def trimList (l : List Char) : List Char :=
  ((l.dropWhile isSp).reverse.dropWhile isSp).reverse

/-- The sentence terminators of `voice_clone.py` line 181: `char in '.!?'`. -/
def isTerminator (c : Char) : Bool :=
  c = '.' || c = '!' || c = '?'

/-- The splitting loop of `process_long_text` (lines 176-185): scan characters,
accumulate into `buf`; when the accumulated character is a terminator and the
buffer (after accumulation) has length at least `minLen`, append the stripped
buffer and reset; afterwards append the stripped remainder when non-empty.
The source hardcodes `minLen = 20`. -/
def segmentLoop (minLen : Nat) : List Char → List Char → List (List Char)
  | [], buf => if trimList buf = [] then [] else [trimList buf]
  | c :: rest, buf =>
    if isTerminator c && decide (minLen ≤ (buf ++ [c]).length) then
      trimList (buf ++ [c]) :: segmentLoop minLen rest []
    else
      segmentLoop minLen rest (buf ++ [c])

/-- The segmenter: `sentences` as computed by `process_long_text`.
The `max_chunk_length` parameter (default 250) of `process_long_text` is never
read by the source; the comparison on line 181 is the literal `>= 20`. -/
def splitSentences (text : List Char) : List (List Char) :=
  segmentLoop 20 text []

/-- Analysis device: the same scan, but returning the raw (unstripped) chunks,
including a possibly-empty trailing remainder. -/
def chunkLoop (minLen : Nat) : List Char → List Char → List (List Char)
  | [], buf => [buf]
  | c :: rest, buf =>
    if isTerminator c && decide (minLen ≤ (buf ++ [c]).length) then
      (buf ++ [c]) :: chunkLoop minLen rest []
    else
      chunkLoop minLen rest (buf ++ [c])

/-- Concatenation of a list of character lists. -/
def concatAll (L : List (List Char)) : List Char :=
  L.foldr (· ++ ·) []

/-- The non-whitespace characters of `l`, in order. -/
def filterNW (l : List Char) : List Char :=
  l.filter (fun c => !isSp c)

@[simp] theorem concatAll_nil : concatAll [] = [] := rfl

@[simp] theorem concatAll_cons (l : List Char) (L : List (List Char)) :
    concatAll (l :: L) = l ++ concatAll L := rfl

theorem filterNW_append (l₁ l₂ : List Char) :
    filterNW (l₁ ++ l₂) = filterNW l₁ ++ filterNW l₂ := by
  simp [filterNW, List.filter_append]

/-- Dropping a prefix of whitespace characters does not change the
non-whitespace characters. -/
theorem filterNW_dropWhile (l : List Char) :
    filterNW (l.dropWhile isSp) = filterNW l := by
  induction l with
  | nil => rfl
  | cons c l ih =>
    by_cases h : isSp c
    · simpa [List.dropWhile_cons, h, filterNW] using ih
    · simp [List.dropWhile_cons, h]

theorem filterNW_reverse (l : List Char) :
    filterNW l.reverse = (filterNW l).reverse := by
  simp [filterNW, List.filter_reverse]

/-- Stripping preserves the non-whitespace characters. -/
theorem filterNW_trimList (l : List Char) :
    filterNW (trimList l) = filterNW l := by
  unfold trimList
  rw [filterNW_reverse, filterNW_dropWhile, filterNW_reverse,
    List.reverse_reverse, filterNW_dropWhile]

/-- A list all of whose characters are whitespace strips to the empty list. -/
theorem trimList_eq_nil_of_all_sp (l : List Char)
    (h : ∀ c ∈ l, isSp c) : trimList l = [] := by
  have h1 : l.dropWhile isSp = [] := List.dropWhile_eq_nil_iff.mpr (by simpa using h)
  simp [trimList, h1]

/-- If a list strips to something non-empty, stripping again changes nothing
about emptiness: the strip of a stripped list is non-empty as well. -/
theorem trimList_trimList_ne_nil (l : List Char) (h : trimList l ≠ []) :
    trimList (trimList l) ≠ [] := by
  intro hnil
  apply h
  have hfw : filterNW (trimList l) = [] := by
    rw [← filterNW_trimList (trimList l), hnil]; rfl
  have hall : ∀ c ∈ trimList l, isSp c := by
    intro c hc
    by_contra hns
    have : c ∈ filterNW (trimList l) := by
      simp [filterNW, List.mem_filter, hc, hns]
    simp [hfw] at this
  have : trimList (trimList l) = [] := trimList_eq_nil_of_all_sp _ hall
  -- so every character of `trimList l` is whitespace; then `filterNW l = []`
  have hfl : filterNW l = [] := by rw [← filterNW_trimList l, hfw]
  have halll : ∀ c ∈ l, isSp c := by
    intro c hc
    by_contra hns
    have : c ∈ filterNW l := by simp [filterNW, List.mem_filter, hc, hns]
    simp [hfl] at this
  exact trimList_eq_nil_of_all_sp _ halll

/-- A list ending in a non-whitespace character strips to a non-empty list. -/
theorem trimList_append_ne_nil (l : List Char) (c : Char) (hc : ¬ isSp c) :
    trimList (l ++ [c]) ≠ [] := by
  intro hnil
  have : filterNW (l ++ [c]) = [] := by
    rw [← filterNW_trimList (l ++ [c]), hnil]; rfl
  rw [filterNW_append] at this
  have : c ∈ ([] : List Char) := by
    rw [← this]
    refine List.mem_append_right _ ?_
    simp [filterNW, List.mem_filter, hc]
  simp at this

/-- Terminator characters are not whitespace. -/
theorem not_isSp_of_isTerminator (c : Char) (h : isTerminator c) : ¬ isSp c := by
  unfold isTerminator at h
  rcases Bool.or_eq_true_iff.mp h with h1 | h1
  · rcases Bool.or_eq_true_iff.mp h1 with h2 | h2 <;>
      · have := of_decide_eq_true h2; subst this; decide
  · have := of_decide_eq_true h1; subst this; decide

/-- The loop `chunkLoop` always returns at least one chunk. -/
theorem chunkLoop_ne_nil (minLen : Nat) (t buf : List Char) :
    chunkLoop minLen t buf ≠ [] := by
  induction t generalizing buf with
  | nil => simp [chunkLoop]
  | cons c rest ih =>
    unfold chunkLoop
    split
    · simp
    · exact ih _

/-- The segmenter output is exactly the stripped chunks, with empty strips
dropped. -/
theorem segmentLoop_eq_chunkLoop (minLen : Nat) (t buf : List Char) :
    segmentLoop minLen t buf =
      ((chunkLoop minLen t buf).map trimList).filter (fun s => !s.isEmpty) := by
  induction t generalizing buf with
  | nil =>
    unfold segmentLoop chunkLoop
    by_cases h : trimList buf = []
    · simp [h]
    · simp [h, List.isEmpty_iff]
  | cons c rest ih =>
    unfold segmentLoop chunkLoop
    split
    · next hcond =>
      have hterm : isTerminator c := (Bool.and_eq_true_iff.mp hcond).1
      have hne : trimList (buf ++ [c]) ≠ [] :=
        trimList_append_ne_nil buf c (not_isSp_of_isTerminator c hterm)
      simp only [List.map_cons, List.filter_cons]
      rw [if_pos (by simpa [List.isEmpty_iff] using hne)]
      rw [ih]
    · exact ih _

/-- The raw chunks concatenate back to the remaining input, prefixed by the
buffer. -/
theorem chunkLoop_concat (minLen : Nat) (t buf : List Char) :
    concatAll (chunkLoop minLen t buf) = buf ++ t := by
  induction t generalizing buf with
  | nil => simp [chunkLoop]
  | cons c rest ih =>
    unfold chunkLoop
    split
    · simp [ih, List.append_assoc]
    · simp [ih, List.append_assoc]

/-- Every chunk except the trailing remainder was closed by the scan: it has
length at least `minLen` and ends in a terminator character. -/
theorem chunkLoop_dropLast (minLen : Nat) (t buf : List Char) :
    ∀ s ∈ (chunkLoop minLen t buf).dropLast,
      minLen ≤ s.length ∧ ∃ l c, s = l ++ [c] ∧ isTerminator c = true := by
  induction t generalizing buf with
  | nil => simp [chunkLoop]
  | cons c rest ih =>
    unfold chunkLoop
    split
    · next hcond =>
      intro s hs
      obtain ⟨x, xs, hx⟩ := List.exists_cons_of_ne_nil (chunkLoop_ne_nil minLen rest [])
      rw [hx, List.dropLast_cons₂] at hs
      rcases List.mem_cons.mp hs with rfl | hs
      · refine ⟨(Bool.and_eq_true_iff.mp hcond).2 |> of_decide_eq_true, buf, c, rfl,
          (Bool.and_eq_true_iff.mp hcond).1⟩
      · exact ih [] s (by rw [hx]; exact hs)
    · exact ih _

/-! ### Decimal formatting of segment indices

`process_long_text` names staged files `part_{i+1:04d}.wav`. We embed the
zero-padded decimal formatting and prove it injective (needed to show that
distinct segments never collide on a staged path). -/

/-- The decimal digit characters. -/
def digitChar : Nat → Char
  | 0 => '0' | 1 => '1' | 2 => '2' | 3 => '3' | 4 => '4'
  | 5 => '5' | 6 => '6' | 7 => '7' | 8 => '8' | _ => '9'

/-- Numeric value of a decimal digit character. -/
def digitVal (c : Char) : Nat := c.toNat - 48

/-- Fueled digit-extraction loop (structural recursion so that the kernel can
evaluate it; the fuel is always sufficient because `n / 10 < n`). -/
def natCharsAux : Nat → Nat → List Char → List Char
  | 0, _, acc => acc
  | _ + 1, 0, acc => acc
  | fuel + 1, n + 1, acc =>
    natCharsAux fuel ((n + 1) / 10) (digitChar ((n + 1) % 10) :: acc)

/-- The decimal digits of `n`, most significant first (empty for `0`). -/
def natChars (n : Nat) : List Char :=
  natCharsAux n n []

theorem natCharsAux_eq_digits (fuel : Nat) :
    ∀ n acc, n ≤ fuel →
      natCharsAux fuel n acc = ((Nat.digits 10 n).map digitChar).reverse ++ acc := by
  induction fuel with
  | zero =>
    intro n acc hn
    have : n = 0 := Nat.le_zero.mp hn
    subst this
    simp [natCharsAux]
  | succ fuel ih =>
    intro n acc hn
    cases n with
    | zero => simp [natCharsAux]
    | succ m =>
      rw [natCharsAux]
      have hdiv : (m + 1) / 10 ≤ fuel := by
        have : (m + 1) / 10 < m + 1 := Nat.div_lt_self (Nat.succ_pos m) (by norm_num)
        omega
      rw [ih _ _ hdiv]
      rw [Nat.digits_def' (b := 10) (by norm_num) (Nat.succ_pos m)]
      simp [List.append_assoc]

theorem natChars_eq_digits (n : Nat) :
    natChars n = ((Nat.digits 10 n).map digitChar).reverse := by
  rw [natChars, natCharsAux_eq_digits n n [] (Nat.le_refl n), List.append_nil]

/-- Python format `part_0001`-style: decimal digits left-padded with zeros to
width four. -/
def pad4 (n : Nat) : List Char :=
  List.replicate (4 - (natChars n).length) '0' ++ natChars n

/-- Read a digit string back as a number. -/
def parseDec (l : List Char) : Nat :=
  l.foldl (fun a c => 10 * a + digitVal c) 0

theorem digitVal_digitChar (d : Nat) (h : d < 10) :
    digitVal (digitChar d) = d := by
  interval_cases d <;> rfl

theorem parseDec_replicate_zero (z : Nat) (l : List Char) :
    parseDec (List.replicate z '0' ++ l) = parseDec l := by
  induction z with
  | zero => rfl
  | succ z ih =>
    simpa [parseDec, List.replicate_succ, List.foldl_cons, digitVal] using ih

theorem foldl_digits_eq_ofDigits (ds : List Nat) :
    List.foldr (fun d a => 10 * a + d) 0 ds = Nat.ofDigits 10 ds := by
  induction ds with
  | nil => rfl
  | cons d ds ih => simp [List.foldr_cons, Nat.ofDigits_cons, ih]; ring

theorem foldr_digitChar_eq (ds : List Nat) (h : ∀ d ∈ ds, d < 10) :
    List.foldr (fun d a => 10 * a + digitVal (digitChar d)) 0 ds
      = List.foldr (fun d a => 10 * a + d) 0 ds := by
  induction ds with
  | nil => rfl
  | cons d ds ih =>
    rw [List.foldr_cons, List.foldr_cons,
      ih (fun e he => h e (List.mem_cons_of_mem _ he)),
      digitVal_digitChar d (h d (List.mem_cons_self d ds))]

theorem parseDec_natChars (n : Nat) : parseDec (natChars n) = n := by
  rw [natChars_eq_digits]
  unfold parseDec
  rw [List.foldl_reverse, List.foldr_map]
  have hlt : ∀ d ∈ Nat.digits 10 n, d < 10 := fun d hd =>
    Nat.digits_lt_base (by norm_num) hd
  calc List.foldr (fun d a => 10 * a + digitVal (digitChar d)) 0 (Nat.digits 10 n)
      = List.foldr (fun d a => 10 * a + d) 0 (Nat.digits 10 n) :=
        foldr_digitChar_eq _ hlt
    _ = Nat.ofDigits 10 (Nat.digits 10 n) := foldl_digits_eq_ofDigits _
    _ = n := Nat.ofDigits_digits 10 n

theorem parseDec_pad4 (n : Nat) : parseDec (pad4 n) = n := by
  rw [pad4, parseDec_replicate_zero, parseDec_natChars]

theorem pad4_injective : Function.Injective pad4 := by
  intro a b h
  have := congrArg parseDec h
  rwa [parseDec_pad4, parseDec_pad4] at this

/-! ### Filesystem model

Paths are `List Char`.  Files form an association list from path to content
(`List Char`); a write shadows older entries.  Directories are a list of
paths.  `os.path.exists` is true for files and directories alike. -/

structure FS where
  files : List (List Char × List Char)
  dirs : List (List Char)
deriving DecidableEq

def lookupFile : List (List Char × List Char) → List Char → Option (List Char)
  | [], _ => none
  | e :: rest, p => if e.1 = p then some e.2 else lookupFile rest p

/-- Content of the file at `p`, if present. -/
def fsLookup (fs : FS) (p : List Char) : Option (List Char) :=
  lookupFile fs.files p

/-- Writing a file (creates or overwrites). -/
def fsWrite (fs : FS) (p content : List Char) : FS :=
  { fs with files := (p, content) :: fs.files }

/-- Model of `os.remove`. -/
def fsRemove (fs : FS) (p : List Char) : FS :=
  { fs with files := fs.files.filter (fun e => !(e.1 = p : Bool)) }

/-- Model of `os.makedirs`. -/
def fsMkdir (fs : FS) (d : List Char) : FS :=
  { fs with dirs := d :: fs.dirs }

/-- A file exists at `p`. -/
def fsFileExists (fs : FS) (p : List Char) : Bool :=
  (fsLookup fs p).isSome

/-- Model of `os.path.exists`: a file or a directory exists at `p`. -/
def fsPathExists (fs : FS) (p : List Char) : Bool :=
  fsFileExists fs p || decide (p ∈ fs.dirs)

@[simp] theorem fsLookup_write_self (fs : FS) (p content : List Char) :
    fsLookup (fsWrite fs p content) p = some content := by
  simp [fsLookup, fsWrite, lookupFile]

theorem fsLookup_write_ne (fs : FS) (p q content : List Char) (h : p ≠ q) :
    fsLookup (fsWrite fs p content) q = fsLookup fs q := by
  simp [fsLookup, fsWrite, lookupFile, h]

@[simp] theorem fsLookup_mkdir (fs : FS) (d p : List Char) :
    fsLookup (fsMkdir fs d) p = fsLookup fs p := rfl

@[simp] theorem fsFileExists_mkdir (fs : FS) (d p : List Char) :
    fsFileExists (fsMkdir fs d) p = fsFileExists fs p := rfl

@[simp] theorem fsMkdir_dirs (fs : FS) (d : List Char) :
    (fsMkdir fs d).dirs = d :: fs.dirs := rfl

@[simp] theorem fsWrite_dirs (fs : FS) (p content : List Char) :
    (fsWrite fs p content).dirs = fs.dirs := rfl

@[simp] theorem fsRemove_dirs (fs : FS) (p : List Char) :
    (fsRemove fs p).dirs = fs.dirs := rfl

@[simp] theorem fsLookup_remove_self (fs : FS) (p : List Char) :
    fsLookup (fsRemove fs p) p = none := by
  simp only [fsLookup, fsRemove]
  induction fs.files with
  | nil => rfl
  | cons e rest ih =>
    by_cases h : e.1 = p
    · simpa [List.filter_cons, h] using ih
    · simpa [List.filter_cons, h, lookupFile] using ih

theorem fsLookup_remove_ne (fs : FS) (p q : List Char) (h : p ≠ q) :
    fsLookup (fsRemove fs p) q = fsLookup fs q := by
  simp only [fsLookup, fsRemove]
  induction fs.files with
  | nil => rfl
  | cons e rest ih =>
    by_cases he : e.1 = p
    · have hq : ¬ e.1 = q := by rw [he]; exact h
      rw [List.filter_cons, if_neg (by simp [he]), lookupFile, if_neg hq]
      exact ih
    · rw [List.filter_cons, if_pos (by simp [he]), lookupFile, lookupFile]
      by_cases hq : e.1 = q
      · rw [if_pos hq, if_pos hq]
      · rw [if_neg hq, if_neg hq]; exact ih

/-! ### Path construction in `process_long_text` -/

/-- Model of `os.path.dirname`: the characters strictly before the last slash
(`""` when there is no slash; the source passes paths through
`os.path.abspath` first, which we model as the identity). -/
def dirName (p : List Char) : List Char :=
  ((p.reverse.dropWhile (fun c => !(c = '/' : Bool))).drop 1).reverse

/-- The staging directory: `os.path.join(os.path.dirname(output), "voice_parts")`. -/
def partsDirOf (output_path : List Char) : List Char :=
  dirName output_path ++ ('/' :: ['v', 'o', 'i', 'c', 'e', '_', 'p', 'a', 'r', 't', 's'])

/-- The staged path of segment position `i` (0-based): `part_{i+1:04d}.wav`. -/
def partName (dir : List Char) (i : Nat) : List Char :=
  dir ++ ('/' :: ['p', 'a', 'r', 't', '_']) ++ pad4 (i + 1) ++ ('.' :: ['w', 'a', 'v'])

/-- The FFmpeg concat manifest: `input_list.txt` inside the staging dir. -/
def listFilePath (dir : List Char) : List Char :=
  dir ++ ('/' :: ['i', 'n', 'p', 'u', 't', '_', 'l', 'i', 's', 't', '.', 't', 'x', 't'])

theorem partName_inj (dir : List Char) {i j : Nat}
    (h : partName dir i = partName dir j) : i = j := by
  unfold partName at h
  rw [List.append_assoc, List.append_assoc, List.append_assoc, List.append_assoc] at h
  have h1 := List.append_cancel_left h
  have h2 := List.append_cancel_left h1
  have h3 := List.append_cancel_right h2
  exact Nat.succ_injective (pad4_injective h3)

theorem partName_ne_listFilePath (dir : List Char) (i : Nat) :
    partName dir i ≠ listFilePath dir := by
  intro h
  unfold partName listFilePath at h
  rw [List.append_assoc, List.append_assoc] at h
  have h1 := List.append_cancel_left h
  simp at h1

theorem partsDirOf_ne_dirName (p : List Char) : partsDirOf p ≠ dirName p := by
  intro h
  have := congrArg List.length h
  simp [partsDirOf] at this

/-! ### The per-segment synthesis loop (`process_long_text`, lines 193-220)

`synth text path` models `tts.tts_to_file(text=..., file_path=path, ...)`:
`some audio` writes `audio` to `path`, `none` models the engine raising (the
`except` branch logs and continues).  The loop records, in order, every
invocation of the synthesis capability as a `(text, path)` pair. -/

structure LoopOut where
  fs : FS
  temps : List (List Char)
  calls : List (List Char × List Char)
deriving DecidableEq

def segLoop (synth : List Char → List Char → Option (List Char))
    (parts_dir : List Char) :
    List (List Char) → Nat → FS → LoopOut
  | [], _, fs => ⟨fs, [], []⟩
  | s :: rest, i, fs =>
    if trimList s = [] then segLoop synth parts_dir rest (i + 1) fs
    else
      let p := partName parts_dir i
      if fsPathExists fs p then
        let r := segLoop synth parts_dir rest (i + 1) fs
        ⟨r.fs, p :: r.temps, r.calls⟩
      else
        match synth s p with
        | some audio =>
          let r := segLoop synth parts_dir rest (i + 1) (fsWrite fs p audio)
          ⟨r.fs, p :: r.temps, (s, p) :: r.calls⟩
        | none =>
          let r := segLoop synth parts_dir rest (i + 1) fs
          ⟨r.fs, p :: r.temps, (s, p) :: r.calls⟩

/-- The loop never deletes or changes an existing file: anything staged before
the loop is still there, with the same content, afterwards. -/
theorem segLoop_preserves (synth : List Char → List Char → Option (List Char))
    (parts_dir : List Char) (segs : List (List Char)) (i : Nat) (fs : FS)
    (q content : List Char) (h : fsLookup fs q = some content) :
    fsLookup (segLoop synth parts_dir segs i fs).fs q = some content := by
  induction segs generalizing i fs with
  | nil => exact h
  | cons s rest ih =>
    unfold segLoop
    by_cases hskip : trimList s = []
    · rw [if_pos hskip]; exact ih _ _ h
    · rw [if_neg hskip]
      by_cases hex : fsPathExists fs (partName parts_dir i)
      · simp only [hex, if_true]
        exact ih _ _ h
      · simp only [hex, if_false, Bool.false_eq_true]
        cases hsy : synth s (partName parts_dir i) with
        | some audio =>
          simp only []
          refine ih _ _ ?_
          have hne : partName parts_dir i ≠ q := by
            intro he
            rw [he] at hex
            exact hex (by simp [fsPathExists, fsFileExists, h])
          rw [fsLookup_write_ne _ _ _ _ hne]
          exact h
        | none => exact ih _ _ h

/-- If a file exists at `q` when the loop starts, no synthesis call ever
targets `q`: the `os.path.exists` resume check fires first. -/
theorem segLoop_no_call_of_exists
    (synth : List Char → List Char → Option (List Char))
    (parts_dir : List Char) (segs : List (List Char)) (i : Nat) (fs : FS)
    (q : List Char) (h : fsFileExists fs q = true) :
    ∀ c ∈ (segLoop synth parts_dir segs i fs).calls, c.2 ≠ q := by
  induction segs generalizing i fs with
  | nil => intro c hc; simp [segLoop] at hc
  | cons s rest ih =>
    unfold segLoop
    by_cases hskip : trimList s = []
    · rw [if_pos hskip]; exact ih _ _ h
    · rw [if_neg hskip]
      by_cases hex : fsPathExists fs (partName parts_dir i)
      · simp only [hex, if_true]
        exact ih _ _ h
      · simp only [hex, if_false, Bool.false_eq_true]
        have hneq : partName parts_dir i ≠ q := by
          intro he
          rw [he] at hex
          exact hex (by simp [fsPathExists, h])
        cases hsy : synth s (partName parts_dir i) with
        | some audio =>
          intro c hc
          rcases List.mem_cons.mp hc with rfl | hc
          · exact hneq
          · refine ih _ _ ?_ c hc
            have : q ≠ partName parts_dir i := fun he => hneq he.symm
            rw [fsFileExists, fsLookup_write_ne _ _ _ _ (fun he => hneq he)]
            exact h
        | none =>
          intro c hc
          rcases List.mem_cons.mp hc with rfl | hc
          · exact hneq
          · exact ih _ _ h c hc

/-- When every segment has non-empty strip (always true for segmenter output),
`temp_wav_files` is exactly the staged name of every position, in order. -/
theorem segLoop_temps (synth : List Char → List Char → Option (List Char))
    (parts_dir : List Char) (segs : List (List Char)) (i : Nat) (fs : FS)
    (h : ∀ s ∈ segs, trimList s ≠ []) :
    (segLoop synth parts_dir segs i fs).temps =
      (List.range segs.length).map (fun k => partName parts_dir (i + k)) := by
  induction segs generalizing i fs with
  | nil => simp [segLoop]
  | cons s rest ih =>
    have hs : trimList s ≠ [] := h s (List.mem_cons_self s rest)
    have hrest : ∀ s ∈ rest, trimList s ≠ [] :=
      fun s hs => h s (List.mem_cons_of_mem _ hs)
    unfold segLoop
    rw [if_neg hs]
    have hrange : ∀ fs1 : FS,
        (segLoop synth parts_dir rest (i + 1) fs1).temps =
        (List.range rest.length).map (fun k => partName parts_dir (i + 1 + k)) :=
      fun fs1 => ih _ _ hrest
    have hgoal : partName parts_dir i ::
        (List.range rest.length).map (fun k => partName parts_dir (i + 1 + k)) =
        (List.range (s :: rest).length).map (fun k => partName parts_dir (i + k)) := by
      simp only [List.length_cons, List.range_succ_eq_map, List.map_cons, List.map_map]
      refine congrArg₂ _ (by rw [Nat.add_zero]) ?_
      refine List.map_congr_left fun k _ => ?_
      simp [Function.comp, Nat.add_comm, Nat.add_assoc, Nat.add_left_comm]
    by_cases hex : fsPathExists fs (partName parts_dir i)
    · simp only [hex, if_true]
      rw [hrange fs]; exact hgoal
    · simp only [hex, if_false, Bool.false_eq_true]
      cases synth s (partName parts_dir i) with
      | some audio => simp only [hrange]; exact hgoal
      | none => simp only [hrange]; exact hgoal

/-- If position `j`'s staged file is absent when the loop starts, and the
synthesis of segment `j` fails, then the file is still absent after the loop
(the failed segment is left unstaged; all other iterations write only their
own distinct staged names). -/
theorem segLoop_absent (synth : List Char → List Char → Option (List Char))
    (parts_dir : List Char) (segs : List (List Char)) (i : Nat) (fs : FS)
    (j : Nat)
    (habs : fsFileExists fs (partName parts_dir j) = false)
    (hfail : ∀ s, j < i + segs.length → i ≤ j →
      segs.get? (j - i) = some s → synth s (partName parts_dir j) = none) :
    fsFileExists (segLoop synth parts_dir segs i fs).fs (partName parts_dir j)
      = false := by
  induction segs generalizing i fs with
  | nil => exact habs
  | cons s rest ih
  =>
    have hlen : (s :: rest).length = rest.length + 1 := rfl
    unfold segLoop
    by_cases hskip : trimList s = []
    · rw [if_pos hskip]
      refine ih _ _ habs fun s2 hlt hle hget => ?_
      refine hfail s2 (by rw [hlen]; omega) (Nat.le_of_succ_le hle) ?_
      have hji : j - i = (j - (i + 1)) + 1 := by omega
      rw [hji]
      simpa using hget
    · rw [if_neg hskip]
      by_cases hij : i = j
      · subst hij
        by_cases hex : fsPathExists fs (partName parts_dir i)
        · -- impossible for the file part, but `fsPathExists` may hold via a
          -- directory; in that case the loop skips and the file stays absent
          simp only [hex, if_true]
          refine ih _ _ habs fun s2 hlt hle hget => ?_
          omega
        · simp only [hex, if_false, Bool.false_eq_true]
          have hsy : synth s (partName parts_dir i) = none := by
            refine hfail s (by simp) (Nat.le_refl i) ?_
            simp [Nat.sub_self]
          rw [hsy]
          refine ih _ _ habs fun s2 hlt hle hget => ?_
          omega
      · have hne : partName parts_dir i ≠ partName parts_dir j :=
          fun he => hij (partName_inj _ he)
        have hnext : ∀ fs1 : FS,
            fsFileExists fs1 (partName parts_dir j) = false →
            fsFileExists (segLoop synth parts_dir rest (i + 1) fs1).fs
              (partName parts_dir j) = false := by
          intro fs1 h1
          refine ih _ _ h1 fun s2 hlt hle hget => ?_
          have hle2 : i ≤ j := Nat.le_of_succ_le hle
          refine hfail s2 (by rw [hlen]; omega) hle2 ?_
          have hji : j - i = (j - (i + 1)) + 1 := by omega
          rw [hji]
          simpa using hget
        by_cases hex : fsPathExists fs (partName parts_dir i)
        · simp only [hex, if_true]
          exact hnext fs habs
        · simp only [hex, if_false, Bool.false_eq_true]
          cases synth s (partName parts_dir i) with
          | some audio =>
            refine hnext _ ?_
            rw [fsFileExists, fsLookup_write_ne _ _ _ _ hne]
            exact habs
          | none => exact hnext fs habs

/-- Iterations past position `j` never invoke synthesis against `j`'s
staged name. -/
theorem segLoop_calls_later (synth : List Char → List Char → Option (List Char))
    (parts_dir : List Char) (segs : List (List Char)) (i : Nat) (fs : FS)
    (j : Nat) (hj : j < i) :
    (segLoop synth parts_dir segs i fs).calls.filter
      (fun c => decide (c.2 = partName parts_dir j)) = [] := by
  induction segs generalizing i fs with
  | nil => rfl
  | cons s rest ih =>
    have hne : ∀ s0 : List Char, ¬ ((s0, partName parts_dir i).2 = partName parts_dir j) := by
      intro s0 he
      exact Nat.ne_of_gt hj (partName_inj _ he)
    unfold segLoop
    by_cases hskip : trimList s = []
    · rw [if_pos hskip]; exact ih _ _ (Nat.lt_succ_of_lt hj)
    · rw [if_neg hskip]
      by_cases hex : fsPathExists fs (partName parts_dir i)
      · simp only [hex, if_true]
        exact ih _ _ (Nat.lt_succ_of_lt hj)
      · simp only [hex, if_false, Bool.false_eq_true]
        cases synth s (partName parts_dir i) with
        | some audio =>
          simp only [List.filter_cons, decide_eq_true_eq]
          rw [if_neg (hne s)]
          exact ih _ _ (Nat.lt_succ_of_lt hj)
        | none =>
          simp only [List.filter_cons, decide_eq_true_eq]
          rw [if_neg (hne s)]
          exact ih _ _ (Nat.lt_succ_of_lt hj)

/-- Synthesis is invoked at most once per staged name in a single run. -/
theorem segLoop_calls_at_most_once
    (synth : List Char → List Char → Option (List Char))
    (parts_dir : List Char) (segs : List (List Char)) (i : Nat) (fs : FS)
    (j : Nat) :
    ((segLoop synth parts_dir segs i fs).calls.filter
      (fun c => decide (c.2 = partName parts_dir j))).length ≤ 1 := by
  induction segs generalizing i fs with
  | nil => simp [segLoop]
  | cons s rest ih =>
    unfold segLoop
    by_cases hskip : trimList s = []
    · rw [if_pos hskip]; exact ih _ _
    · rw [if_neg hskip]
      by_cases hex : fsPathExists fs (partName parts_dir i)
      · simp only [hex, if_true]
        exact ih _ _
      · simp only [hex, if_false, Bool.false_eq_true]
        have hcons : ∀ fs1 : FS,
            (((s, partName parts_dir i) ::
              (segLoop synth parts_dir rest (i + 1) fs1).calls).filter
                (fun c => decide (c.2 = partName parts_dir j))).length ≤ 1 := by
          intro fs1
          by_cases hij : i = j
          · subst hij
            rw [List.filter_cons]
            simp only [decide_eq_true_eq, if_true]
            rw [segLoop_calls_later synth parts_dir rest (i + 1) fs1 i (Nat.lt_succ_self i)]
            simp
          · rw [List.filter_cons]
            have hne : ¬ ((s, partName parts_dir i).2 = partName parts_dir j) :=
              fun he => hij (partName_inj _ he)
            simp only [decide_eq_true_eq]
            rw [if_neg hne]
            exact ih _ _
        cases synth s (partName parts_dir i) with
        | some audio => simpa using hcons (fsWrite fs (partName parts_dir i) audio)
        | none => simpa using hcons fs

/-! ### `process_long_text` (lines 149-246)

The orchestrator: ensure the staging directory exists, split the text, take
the single-shot path when at most one segment results, otherwise run the
segment loop, write the FFmpeg concat manifest, and invoke the concat tool
over the staged files that exist on disk.  `ffmpeg inputs` models the
`subprocess.run` concat call: `some audio` writes the output file, `none`
models a raised `CalledProcessError` (caught, logged, run continues). -/

structure PLTResult where
  fs : FS
  calls : List (List Char × List Char)
  temps : List (List Char)
  concatInput : Option (List (List Char))
  concatOk : Option Bool
  raised : Bool
  fsLoop : FS
deriving DecidableEq

/-- The staging directory creation at the top of `process_long_text`
(lines 167-169): `makedirs` only when `os.path.exists` is false. -/
def pltFs1 (output_path : List Char) (fs0 : FS) : FS :=
  if fsPathExists fs0 (partsDirOf output_path) then fs0
  else fsMkdir fs0 (partsDirOf output_path)

/-- The segment loop of the long path, started on the post-`makedirs` state. -/
def pltLoop (synth : List Char -> List Char -> Option (List Char))
    (text output_path : List Char) (fs0 : FS) : LoopOut :=
  segLoop synth (partsDirOf output_path) (splitSentences text) 0
    (pltFs1 output_path fs0)

/-- The file list handed to the concat tool: every `temp_wav_files` entry that
exists on disk after the loop, in loop order (lines 227-232). -/
def pltInputs (synth : List Char -> List Char -> Option (List Char))
    (text output_path : List Char) (fs0 : FS) : List (List Char) :=
  (pltLoop synth text output_path fs0).temps.filter
    (fun p => fsFileExists (pltLoop synth text output_path fs0).fs p)

/-- Content of the concat manifest; one line per input (quoting and
`os.path.abspath` are abstracted: the content is never read back by the
model). -/
def listFileContent (inputs : List (List Char)) : List Char :=
  concatAll (inputs.map (fun p => p ++ ['\n']))

def process_long_text (synth : List Char -> List Char -> Option (List Char))
    (ffmpeg : List (List Char) -> Option (List Char))
    (text output_path : List Char) (fs0 : FS) : PLTResult :=
  if (splitSentences text).length <= 1 then
    -- short path: `return clone_voice(...)` straight to the output file;
    -- a synthesis failure here propagates out of `process_long_text`
    match synth text output_path with
    | some audio => ⟨fsWrite (pltFs1 output_path fs0) output_path audio,
        [(text, output_path)], [], none, none, false, pltFs1 output_path fs0⟩
    | none => ⟨pltFs1 output_path fs0, [(text, output_path)], [], none, none,
        true, pltFs1 output_path fs0⟩
  else
    match ffmpeg (pltInputs synth text output_path fs0) with
    | some audio =>
      ⟨fsWrite (fsWrite (pltLoop synth text output_path fs0).fs
          (listFilePath (partsDirOf output_path))
          (listFileContent (pltInputs synth text output_path fs0)))
          output_path audio,
        (pltLoop synth text output_path fs0).calls,
        (pltLoop synth text output_path fs0).temps,
        some (pltInputs synth text output_path fs0), some true, false,
        (pltLoop synth text output_path fs0).fs⟩
    | none =>
      ⟨fsWrite (pltLoop synth text output_path fs0).fs
          (listFilePath (partsDirOf output_path))
          (listFileContent (pltInputs synth text output_path fs0)),
        (pltLoop synth text output_path fs0).calls,
        (pltLoop synth text output_path fs0).temps,
        some (pltInputs synth text output_path fs0), some false, false,
        (pltLoop synth text output_path fs0).fs⟩

/-! ### Helper lemmas about `process_long_text` -/

theorem fsPathExists_pltFs1 (out : List Char) (fs0 : FS) :
    fsPathExists (pltFs1 out fs0) (partsDirOf out) = true := by
  unfold pltFs1
  by_cases h : fsPathExists fs0 (partsDirOf out)
  · rw [if_pos h]; exact h
  · rw [if_neg h]
    simp [fsPathExists, fsMkdir]

theorem fsLookup_pltFs1 (out : List Char) (fs0 : FS) (p : List Char) :
    fsLookup (pltFs1 out fs0) p = fsLookup fs0 p := by
  unfold pltFs1
  by_cases h : fsPathExists fs0 (partsDirOf out)
  · rw [if_pos h]
  · rw [if_neg h]; rfl

theorem fsFileExists_pltFs1 (out : List Char) (fs0 : FS) (p : List Char) :
    fsFileExists (pltFs1 out fs0) p = fsFileExists fs0 p := by
  rw [fsFileExists, fsLookup_pltFs1]; rfl

theorem fsPathExists_write_mono (fs : FS) (p q content : List Char)
    (h : fsPathExists fs p = true) :
    fsPathExists (fsWrite fs q content) p = true := by
  rcases Bool.or_eq_true_iff.mp h with h1 | h1
  · by_cases hqp : q = p
    · subst hqp
      simp [fsPathExists, fsFileExists]
    · rw [fsPathExists, fsFileExists, fsLookup_write_ne fs q p content hqp]
      rw [Bool.or_eq_true_iff]
      exact Or.inl h1
  · rw [fsPathExists, Bool.or_eq_true_iff]
    exact Or.inr (by simpa [fsWrite] using h1)

/-- Every segmenter output is non-empty and remains non-empty after another
strip (segments are already stripped). -/
theorem splitSentences_mem (text : List Char) (s : List Char)
    (hs : s ∈ splitSentences text) : s ≠ [] ∧ trimList s ≠ [] := by
  rw [splitSentences, segmentLoop_eq_chunkLoop] at hs
  have h1 := List.of_mem_filter hs
  have h2 := List.mem_of_mem_filter hs
  have hne : s ≠ [] := by
    intro he
    rw [he] at h1
    simp at h1
  refine ⟨hne, ?_⟩
  rcases List.mem_map.mp h2 with ⟨c, _, rfl⟩
  exact trimList_trimList_ne_nil c hne

theorem plt_long_not_le (text : List Char)
    (hlen : 1 < (splitSentences text).length) :
    ¬ ((splitSentences text).length ≤ 1) := Nat.not_le.mpr hlen

theorem plt_calls_long (synth : List Char -> List Char -> Option (List Char))
    (ffmpeg : List (List Char) -> Option (List Char))
    (text out : List Char) (fs0 : FS)
    (hlen : 1 < (splitSentences text).length) :
    (process_long_text synth ffmpeg text out fs0).calls
      = (pltLoop synth text out fs0).calls := by
  unfold process_long_text
  rw [if_neg (plt_long_not_le text hlen)]
  cases ffmpeg (pltInputs synth text out fs0) <;> rfl

theorem plt_fsLoop_long (synth : List Char -> List Char -> Option (List Char))
    (ffmpeg : List (List Char) -> Option (List Char))
    (text out : List Char) (fs0 : FS)
    (hlen : 1 < (splitSentences text).length) :
    (process_long_text synth ffmpeg text out fs0).fsLoop
      = (pltLoop synth text out fs0).fs := by
  unfold process_long_text
  rw [if_neg (plt_long_not_le text hlen)]
  cases ffmpeg (pltInputs synth text out fs0) <;> rfl

theorem plt_temps_long (synth : List Char -> List Char -> Option (List Char))
    (ffmpeg : List (List Char) -> Option (List Char))
    (text out : List Char) (fs0 : FS)
    (hlen : 1 < (splitSentences text).length) :
    (process_long_text synth ffmpeg text out fs0).temps
      = (pltLoop synth text out fs0).temps := by
  unfold process_long_text
  rw [if_neg (plt_long_not_le text hlen)]
  cases ffmpeg (pltInputs synth text out fs0) <;> rfl

theorem plt_concatInput_long (synth : List Char -> List Char -> Option (List Char))
    (ffmpeg : List (List Char) -> Option (List Char))
    (text out : List Char) (fs0 : FS)
    (hlen : 1 < (splitSentences text).length) :
    (process_long_text synth ffmpeg text out fs0).concatInput
      = some (pltInputs synth text out fs0) := by
  unfold process_long_text
  rw [if_neg (plt_long_not_le text hlen)]
  cases ffmpeg (pltInputs synth text out fs0) <;> rfl

theorem plt_raised_long (synth : List Char -> List Char -> Option (List Char))
    (ffmpeg : List (List Char) -> Option (List Char))
    (text out : List Char) (fs0 : FS)
    (hlen : 1 < (splitSentences text).length) :
    (process_long_text synth ffmpeg text out fs0).raised = false := by
  unfold process_long_text
  rw [if_neg (plt_long_not_le text hlen)]
  cases ffmpeg (pltInputs synth text out fs0) <;> rfl

theorem plt_concatOk_fail (synth : List Char -> List Char -> Option (List Char))
    (ffmpeg : List (List Char) -> Option (List Char))
    (text out : List Char) (fs0 : FS)
    (hlen : 1 < (splitSentences text).length)
    (hfail : ffmpeg (pltInputs synth text out fs0) = none) :
    (process_long_text synth ffmpeg text out fs0).concatOk = some false := by
  unfold process_long_text
  rw [if_neg (plt_long_not_le text hlen), hfail]

theorem plt_fs_fail (synth : List Char -> List Char -> Option (List Char))
    (ffmpeg : List (List Char) -> Option (List Char))
    (text out : List Char) (fs0 : FS)
    (hlen : 1 < (splitSentences text).length)
    (hfail : ffmpeg (pltInputs synth text out fs0) = none) :
    (process_long_text synth ffmpeg text out fs0).fs
      = fsWrite (pltLoop synth text out fs0).fs
          (listFilePath (partsDirOf out))
          (listFileContent (pltInputs synth text out fs0)) := by
  unfold process_long_text
  rw [if_neg (plt_long_not_le text hlen), hfail]

/-- The list of staged names visited by the loop, for the real segmenter
output: position `k` maps to `part_{k+1:04d}.wav`. -/
theorem pltLoop_temps (synth : List Char -> List Char -> Option (List Char))
    (text out : List Char) (fs0 : FS) :
    (pltLoop synth text out fs0).temps =
      (List.range (splitSentences text).length).map
        (fun k => partName (partsDirOf out) k) := by
  unfold pltLoop
  rw [segLoop_temps synth (partsDirOf out) (splitSentences text) 0 (pltFs1 out fs0)
    (fun s hs => (splitSentences_mem text s hs).2)]
  simp

/-! ### Generation presets (lines 84-107) and their resolution in `main`
(lines 348-360).  The float literals are only stored and compared, never
computed with, so they are embedded as rationals. -/

inductive PresetName where
  | stable
  | neutral
  | expressive
  | extreme
deriving DecidableEq

structure GenerationParams where
  temperature : Rat
  repetition_penalty : Rat
  speed : Rat
deriving DecidableEq

def GENERATION_PRESETS : PresetName -> GenerationParams
  | .stable => ⟨0.1, 20.0, 1.0⟩
  | .neutral => ⟨0.75, 10.0, 1.0⟩
  | .expressive => ⟨0.85, 5.0, 1.0⟩
  | .extreme => ⟨0.95, 2.0, 1.0⟩

/-- Lines 348-360 of `main`: start from the neutral preset, replace wholesale
by a named preset when given, then overwrite each explicitly supplied field. -/
def resolveGenParams (preset : Option PresetName)
    (temperature repetition_penalty speed : Option Rat) : GenerationParams :=
  let base := GENERATION_PRESETS .neutral
  let base := match preset with
    | some p => GENERATION_PRESETS p
    | none => base
  { temperature := temperature.getD base.temperature
    repetition_penalty := repetition_penalty.getD base.repetition_penalty
    speed := speed.getD base.speed }

/-! ### The command-line entry point `main` (lines 249-396)

Modelling notes:
* argparse aborts with process exit code 2 on a missing required argument and
  on `parser.error` (both/neither of `--text`/`--text_file`).
* Python truthiness of an optional string: `None` and `""` are falsy.
* `load_model`, the conversion FFmpeg call and the synthesis engine are
  oracles; `tempPath` stands for the fresh name handed out by
  `tempfile.NamedTemporaryFile`.
* every exception inside the `try` block is caught (lines 378-385), after
  which the `finally` cleanup runs and the exit code is decided solely by
  `os.path.exists(args.output)` (lines 393-396). -/

structure MainArgs where
  reference : Option (List Char)
  text : Option (List Char)
  text_file : Option (List Char)
  output : List Char
  preset : Option PresetName
  temperature : Option Rat
  repetition_penalty : Option Rat
  speed : Option Rat

/-- Python truthiness of an optional string. -/
def truthyOpt : Option (List Char) -> Bool
  | none => false
  | some [] => false
  | some (_ :: _) => true

/-- Model of `os.path.basename`: the characters after the last slash. -/
def baseNameOf (p : List Char) : List Char :=
  (p.reverse.takeWhile (fun c => !(c = '/' : Bool))).reverse

/-- Model of `pathlib.Path(p).suffix`: the last dot-suffix of the basename, empty when
the dot is absent, leading, or trailing. -/
def pathSuffix (p : List Char) : List Char :=
  let name := baseNameOf p
  let after := name.reverse.takeWhile (fun c => !(c = '.' : Bool))
  let rest := name.reverse.dropWhile (fun c => !(c = '.' : Bool))
  if 2 <= rest.length && !after.isEmpty then '.' :: after.reverse else []

/-- The supported reference formats of `validate_reference_audio`
(line 43). -/
def supported_formats : List (List Char) :=
  [['.', 'w', 'a', 'v'], ['.', 'm', 'p', '3'], ['.', 'f', 'l', 'a', 'c'],
   ['.', 'o', 'g', 'g'], ['.', 'm', '4', 'a']]

/-- Lines 37-50, `validate_reference_audio`: the file must exist and its
lower-cased suffix must be a supported format. -/
def validate_reference_audio (fs : FS) (audio_path : List Char) : Bool :=
  fsPathExists fs audio_path &&
    supported_formats.contains ((pathSuffix audio_path).map Char.toLower)

/-- Line 55: `audio_path.lower().endswith('.wav')`. -/
def endsWithWav (p : List Char) : Bool :=
  (p.map Char.toLower).reverse.take 4 = ['v', 'a', 'w', '.']

/-- The text `main` synthesises: `--text` literally, or the stripped content
of `--text_file` (empty when the file is unreadable). -/
def resolvedText (args : MainArgs) (fs0 : FS) : List Char :=
  if truthyOpt args.text_file then
    ((fsLookup fs0 (args.text_file.getD [])).map trimList).getD []
  else
    args.text.getD []

structure MainResult where
  exit : Nat
  fs : FS
deriving DecidableEq

/-- Lines 344-346 of `main`: create the output directory when it is named and
missing. -/
def outDirStep (args : MainArgs) (fs0 : FS) : FS :=
  if !(dirName args.output).isEmpty && !fsPathExists fs0 (dirName args.output)
  then fsMkdir fs0 (dirName args.output) else fs0

/-- Lines 53-80, `auto_convert_to_wav`, filesystem effect: a non-WAV
reference is converted into a fresh temporary WAV (the `convert` oracle is the
FFmpeg conversion call; on its failure the temporary file is removed again and
the original reference is used). -/
def autoConvertFS (convert : Option (List Char)) (tempPath ref : List Char)
    (fs1 : FS) : FS :=
  if endsWithWav ref then fs1
  else match convert with
    | some audio => fsWrite fs1 tempPath audio
    | none => fs1

/-- Second component of the `auto_convert_to_wav` result (`is_temp`). -/
def autoConvertIsTemp (convert : Option (List Char)) (ref : List Char) : Bool :=
  if endsWithWav ref then false
  else match convert with
    | some _ => true
    | none => false

/-- Lines 370-376: load the model, then dispatch on the 500-character cutoff
applied to the original text; all exceptions are caught by the surrounding
`try`. -/
def synthStepFS (synth : List Char -> List Char -> Option (List Char))
    (ffmpeg : List (List Char) -> Option (List Char)) (loadOk : Bool)
    (text out : List Char) (fs2 : FS) : FS :=
  if !loadOk then fs2
  else if 500 < text.length then
    (process_long_text synth ffmpeg text out fs2).fs
  else match synth text out with
    | some audio => fsWrite fs2 out audio
    | none => fs2

/-- The whole `try`/`finally` block of `main` (lines 366-391): auto-convert,
load, synthesise, then delete the temporary converted reference if it still
exists. -/
def mainTry (synth : List Char -> List Char -> Option (List Char))
    (ffmpeg : List (List Char) -> Option (List Char))
    (convert : Option (List Char)) (loadOk : Bool)
    (tempPath ref out text : List Char) (fs1 : FS) : FS :=
  if autoConvertIsTemp convert ref &&
      fsFileExists
        (synthStepFS synth ffmpeg loadOk text out
          (autoConvertFS convert tempPath ref fs1)) tempPath then
    fsRemove
      (synthStepFS synth ffmpeg loadOk text out
        (autoConvertFS convert tempPath ref fs1)) tempPath
  else
    synthStepFS synth ffmpeg loadOk text out (autoConvertFS convert tempPath ref fs1)

def mainRun (synth : List Char -> List Char -> Option (List Char))
    (ffmpeg : List (List Char) -> Option (List Char))
    (convert : Option (List Char)) (loadOk : Bool) (tempPath : List Char)
    (args : MainArgs) (fs0 : FS) : MainResult :=
  match args.reference with
  | none => ⟨2, fs0⟩
  | some ref =>
    if !truthyOpt args.text && !truthyOpt args.text_file then ⟨2, fs0⟩
    else if truthyOpt args.text && truthyOpt args.text_file then ⟨2, fs0⟩
    else if truthyOpt args.text_file && (fsLookup fs0 (args.text_file.getD [])).isNone
      then ⟨1, fs0⟩
    else if resolvedText args fs0 = [] then ⟨1, fs0⟩
    else if !validate_reference_audio fs0 ref then ⟨1, fs0⟩
    else if fsPathExists
        (mainTry synth ffmpeg convert loadOk tempPath ref args.output
          (resolvedText args fs0) (outDirStep args fs0)) args.output then
      ⟨0, mainTry synth ffmpeg convert loadOk tempPath ref args.output
        (resolvedText args fs0) (outDirStep args fs0)⟩
    else
      ⟨1, mainTry synth ffmpeg convert loadOk tempPath ref args.output
        (resolvedText args fs0) (outDirStep args fs0)⟩

/-! ### Concrete scenarios used by witnesses and counterexamples -/

def sampleOut : List Char := ['o', '/', 'o', 'u', 't', '.', 'w', 'a', 'v']

def sampleDir : List Char := partsDirOf sampleOut

/-- Two-segment text: a 20-character sentence followed by a short tail. -/
def sampleText : List Char :=
  ['a', 'b', 'c', 'd', 'e', 'f', 'g', 'h', 'i', 'j', 'k', 'l', 'm', 'n', 'o',
   'p', 'q', 'r', 's', '.', ' ', 't', 'a', 'i', 'l', ' ', 'p', 'a', 'r', 't']

def tailSeg : List Char := ['t', 'a', 'i', 'l', ' ', 'p', 'a', 'r', 't']

def synthX : List Char -> List Char -> Option (List Char) := fun _ _ => some ['x']

def ffmpegY : List (List Char) -> Option (List Char) := fun _ => some ['y']

/-- The join tool being unavailable: every invocation raises. -/
def ffmpegNone : List (List Char) -> Option (List Char) := fun _ => none

/-- Synthesis that fails exactly on the first staged name. -/
def synthFail0 : List Char -> List Char -> Option (List Char) :=
  fun _ p => if p = partName sampleDir 0 then none else some ['x']

def emptyFS : FS := ⟨[], []⟩

/-- Segment 1 already staged, non-empty. -/
def stagedFS : FS := ⟨[(partName sampleDir 0, ['x'])], []⟩

/-- Segment 1 staged as a zero-byte artifact. -/
def stagedEmptyFS : FS := ⟨[(partName sampleDir 0, [])], []⟩

/-! ### Claim theorems: the long-text orchestrator -/

/-- C3: a segment whose staged file exists (and is non-empty) at the start of
the run is never handed to the synthesis capability — the existence check
fires before any call — and its staged content is untouched by the loop. -/
theorem staged_nonempty_segment_not_resynthesized
    (synth : List Char -> List Char -> Option (List Char))
    (ffmpeg : List (List Char) -> Option (List Char))
    (text out : List Char) (fs0 : FS) (i : Nat) (content : List Char)
    (hlen : 1 < (splitSentences text).length)
    (hstaged : fsLookup fs0 (partName (partsDirOf out) i) = some content)
    (_hne : content ≠ []) :
    (∀ c ∈ (process_long_text synth ffmpeg text out fs0).calls,
      c.2 ≠ partName (partsDirOf out) i) ∧
    fsLookup (process_long_text synth ffmpeg text out fs0).fsLoop
      (partName (partsDirOf out) i) = some content := by
  constructor
  · rw [plt_calls_long synth ffmpeg text out fs0 hlen]
    refine segLoop_no_call_of_exists synth (partsDirOf out) (splitSentences text) 0
      (pltFs1 out fs0) (partName (partsDirOf out) i) ?_
    rw [fsFileExists, fsLookup_pltFs1, hstaged]; rfl
  · rw [plt_fsLoop_long synth ffmpeg text out fs0 hlen]
    exact segLoop_preserves synth (partsDirOf out) (splitSentences text) 0
      (pltFs1 out fs0) _ content (by rw [fsLookup_pltFs1]; exact hstaged)

theorem staged_nonempty_segment_not_resynthesized_witness :
    (tailSeg, partName sampleDir 1).2 ≠ partName sampleDir 0 ∧
    fsLookup (process_long_text synthX ffmpegY sampleText sampleOut stagedFS).fsLoop
      (partName sampleDir 0) = some ['x'] := by
  refine ⟨(staged_nonempty_segment_not_resynthesized synthX ffmpegY sampleText
      sampleOut stagedFS 0 ['x'] (by decide) (by decide) (by decide)).1
      (tailSeg, partName sampleDir 1) (by decide),
    (staged_nonempty_segment_not_resynthesized synthX ffmpegY sampleText
      sampleOut stagedFS 0 ['x'] (by decide) (by decide) (by decide)).2⟩

/-- C10: a staged file that exists but is empty is treated exactly like a
complete one: the resume check tests existence only, so synthesis is never
invoked for it and it still flows into the Concatenator input. -/
theorem empty_staged_treated_complete
    (synth : List Char -> List Char -> Option (List Char))
    (ffmpeg : List (List Char) -> Option (List Char))
    (text out : List Char) (fs0 : FS) (i : Nat)
    (hlen : 1 < (splitSentences text).length)
    (hstaged : fsLookup fs0 (partName (partsDirOf out) i) = some [])
    (hlt : i < (splitSentences text).length) :
    (∀ c ∈ (process_long_text synth ffmpeg text out fs0).calls,
      c.2 ≠ partName (partsDirOf out) i) ∧
    partName (partsDirOf out) i ∈
      ((process_long_text synth ffmpeg text out fs0).concatInput.getD []) := by
  constructor
  · rw [plt_calls_long synth ffmpeg text out fs0 hlen]
    refine segLoop_no_call_of_exists synth (partsDirOf out) (splitSentences text) 0
      (pltFs1 out fs0) (partName (partsDirOf out) i) ?_
    rw [fsFileExists, fsLookup_pltFs1, hstaged]; rfl
  · rw [plt_concatInput_long synth ffmpeg text out fs0 hlen]
    rw [Option.getD_some]
    unfold pltInputs
    refine List.mem_filter.mpr ⟨?_, ?_⟩
    · rw [pltLoop_temps]
      exact List.mem_map.mpr ⟨i, List.mem_range.mpr hlt, rfl⟩
    · have := segLoop_preserves synth (partsDirOf out) (splitSentences text) 0
        (pltFs1 out fs0) (partName (partsDirOf out) i) []
        (by rw [fsLookup_pltFs1]; exact hstaged)
      rw [pltLoop]
      simp [fsFileExists, this]

theorem empty_staged_treated_complete_witness :
    (tailSeg, partName sampleDir 1).2 ≠ partName sampleDir 0 ∧
    partName sampleDir 0 ∈
      ((process_long_text synthX ffmpegY sampleText sampleOut
        stagedEmptyFS).concatInput.getD []) := by
  refine ⟨(empty_staged_treated_complete synthX ffmpegY sampleText sampleOut
      stagedEmptyFS 0 (by decide) (by decide) (by decide)).1
      (tailSeg, partName sampleDir 1) (by decide),
    (empty_staged_treated_complete synthX ffmpegY sampleText sampleOut
      stagedEmptyFS 0 (by decide) (by decide) (by decide)).2⟩

/-- C4: when the synthesis of segment `i` raises, the run still completes,
synthesis was attempted at most once for that segment, its staged file is
absent after the loop, and the Concatenator receives exactly the staged files
that exist on disk, in increasing index order — without the failed one. -/
theorem failed_segment_run_completes
    (synth : List Char -> List Char -> Option (List Char))
    (ffmpeg : List (List Char) -> Option (List Char))
    (text out : List Char) (fs0 : FS) (i : Nat) (s : List Char)
    (hlen : 1 < (splitSentences text).length)
    (hget : (splitSentences text).get? i = some s)
    (hfail : synth s (partName (partsDirOf out) i) = none)
    (habs : fsFileExists fs0 (partName (partsDirOf out) i) = false) :
    (process_long_text synth ffmpeg text out fs0).raised = false ∧
    ((process_long_text synth ffmpeg text out fs0).calls.filter
      (fun c => decide (c.2 = partName (partsDirOf out) i))).length ≤ 1 ∧
    fsFileExists (process_long_text synth ffmpeg text out fs0).fsLoop
      (partName (partsDirOf out) i) = false ∧
    (process_long_text synth ffmpeg text out fs0).concatInput
      = some (((List.range (splitSentences text).length).map
          (fun k => partName (partsDirOf out) k)).filter
          (fun p => fsFileExists
            (process_long_text synth ffmpeg text out fs0).fsLoop p)) ∧
    partName (partsDirOf out) i ∉
      ((process_long_text synth ffmpeg text out fs0).concatInput.getD []) := by
  have habsLoop : fsFileExists (pltLoop synth text out fs0).fs
      (partName (partsDirOf out) i) = false := by
    unfold pltLoop
    refine segLoop_absent synth (partsDirOf out) (splitSentences text) 0
      (pltFs1 out fs0) i ?_ ?_
    · rw [fsFileExists_pltFs1]; exact habs
    · intro s2 hlt2 hle hget2
      rw [Nat.sub_zero, hget] at hget2
      injection hget2 with h2
      rw [← h2]
      exact hfail
  refine ⟨plt_raised_long synth ffmpeg text out fs0 hlen, ?_, ?_, ?_, ?_⟩
  · rw [plt_calls_long synth ffmpeg text out fs0 hlen]
    exact segLoop_calls_at_most_once synth (partsDirOf out) (splitSentences text) 0
      (pltFs1 out fs0) i
  · rw [plt_fsLoop_long synth ffmpeg text out fs0 hlen]
    exact habsLoop
  · rw [plt_concatInput_long synth ffmpeg text out fs0 hlen,
      plt_fsLoop_long synth ffmpeg text out fs0 hlen]
    unfold pltInputs
    rw [pltLoop_temps]
  · intro hmem
    rw [plt_concatInput_long synth ffmpeg text out fs0 hlen, Option.getD_some] at hmem
    unfold pltInputs at hmem
    have := (List.mem_filter.mp hmem).2
    rw [habsLoop] at this
    simp at this

theorem failed_segment_run_completes_witness :
    (process_long_text synthFail0 ffmpegY sampleText sampleOut emptyFS).raised = false ∧
    ((process_long_text synthFail0 ffmpegY sampleText sampleOut emptyFS).calls.filter
      (fun c => decide (c.2 = partName (partsDirOf sampleOut) 0))).length ≤ 1 ∧
    fsFileExists (process_long_text synthFail0 ffmpegY sampleText sampleOut
      emptyFS).fsLoop (partName (partsDirOf sampleOut) 0) = false ∧
    (process_long_text synthFail0 ffmpegY sampleText sampleOut emptyFS).concatInput
      = some (((List.range (splitSentences sampleText).length).map
          (fun k => partName (partsDirOf sampleOut) k)).filter
          (fun p => fsFileExists
            (process_long_text synthFail0 ffmpegY sampleText sampleOut
              emptyFS).fsLoop p)) ∧
    partName (partsDirOf sampleOut) 0 ∉
      ((process_long_text synthFail0 ffmpegY sampleText sampleOut
        emptyFS).concatInput.getD []) :=
  failed_segment_run_completes synthFail0 ffmpegY sampleText sampleOut emptyFS 0
    ['a', 'b', 'c', 'd', 'e', 'f', 'g', 'h', 'i', 'j', 'k', 'l', 'm', 'n', 'o',
     'p', 'q', 'r', 's', '.']
    (by decide) (by decide) (by decide) (by decide)

/-- C9: if the join tool invocation raises (unavailable or non-zero exit),
the concat step fails, the output file is not produced by it, and every
segment file staged before the run is still on disk unchanged. -/
theorem concat_failure_preserves_parts
    (synth : List Char -> List Char -> Option (List Char))
    (ffmpeg : List (List Char) -> Option (List Char))
    (text out : List Char) (fs0 : FS)
    (hlen : 1 < (splitSentences text).length)
    (hfail : ffmpeg (pltInputs synth text out fs0) = none)
    (hol : out ≠ listFilePath (partsDirOf out)) :
    (process_long_text synth ffmpeg text out fs0).concatOk = some false ∧
    fsLookup (process_long_text synth ffmpeg text out fs0).fs out
      = fsLookup (process_long_text synth ffmpeg text out fs0).fsLoop out ∧
    (∀ i content, fsLookup fs0 (partName (partsDirOf out) i) = some content →
      fsLookup (process_long_text synth ffmpeg text out fs0).fs
        (partName (partsDirOf out) i) = some content) := by
  refine ⟨plt_concatOk_fail synth ffmpeg text out fs0 hlen hfail, ?_, ?_⟩
  · rw [plt_fs_fail synth ffmpeg text out fs0 hlen hfail,
      plt_fsLoop_long synth ffmpeg text out fs0 hlen,
      fsLookup_write_ne _ _ _ _ (fun he => hol he.symm)]
  · intro i content hc
    rw [plt_fs_fail synth ffmpeg text out fs0 hlen hfail,
      fsLookup_write_ne _ _ _ _
        (fun he => partName_ne_listFilePath (partsDirOf out) i he.symm)]
    exact segLoop_preserves synth (partsDirOf out) (splitSentences text) 0
      (pltFs1 out fs0) _ content (by rw [fsLookup_pltFs1]; exact hc)

theorem concat_failure_preserves_parts_witness :
    (process_long_text synthX ffmpegNone sampleText sampleOut stagedFS).concatOk
      = some false ∧
    fsLookup (process_long_text synthX ffmpegNone sampleText sampleOut stagedFS).fs
        sampleOut
      = fsLookup (process_long_text synthX ffmpegNone sampleText sampleOut
          stagedFS).fsLoop sampleOut ∧
    fsLookup (process_long_text synthX ffmpegNone sampleText sampleOut stagedFS).fs
      (partName (partsDirOf sampleOut) 0) = some ['x'] := by
  refine ⟨(concat_failure_preserves_parts synthX ffmpegNone sampleText sampleOut
      stagedFS (by decide) (by decide) (by decide)).1,
    (concat_failure_preserves_parts synthX ffmpegNone sampleText sampleOut
      stagedFS (by decide) (by decide) (by decide)).2.1,
    (concat_failure_preserves_parts synthX ffmpegNone sampleText sampleOut
      stagedFS (by decide) (by decide) (by decide)).2.2 0 ['x'] (by decide)⟩

set_option maxRecDepth 40000 in
/-- C2 (counterexample): on the long-text path with a single-segment text
(501 characters, no terminator), the synthesizer is indeed called once against
the final output path, but the staging directory IS created: it comes into
existence although it was absent beforehand, contrary to the claim. -/
theorem single_segment_creates_staging_dir :
    (splitSentences (List.replicate 501 'a')).length ≤ 1 ∧
    (process_long_text synthX ffmpegY (List.replicate 501 'a') sampleOut
      emptyFS).calls = [(List.replicate 501 'a', sampleOut)] ∧
    partsDirOf sampleOut ∈
      (process_long_text synthX ffmpegY (List.replicate 501 'a') sampleOut
        emptyFS).fs.dirs ∧
    partsDirOf sampleOut ∉ emptyFS.dirs := by decide

/-- C2 (amended): on the long-text path with at most one segment, the
synthesizer is called exactly once, directly against the final output path,
no concat step runs and nothing but the output file is written — but the
staging directory is (idempotently) brought into existence at entry, before
segmentation. -/
theorem short_path_single_call
    (synth : List Char -> List Char -> Option (List Char))
    (ffmpeg : List (List Char) -> Option (List Char))
    (text out : List Char) (fs0 : FS)
    (hlen : (splitSentences text).length ≤ 1) :
    (process_long_text synth ffmpeg text out fs0).calls = [(text, out)] ∧
    fsPathExists (process_long_text synth ffmpeg text out fs0).fs
      (partsDirOf out) = true ∧
    (process_long_text synth ffmpeg text out fs0).concatInput = none ∧
    ∀ p, p ≠ out →
      fsLookup (process_long_text synth ffmpeg text out fs0).fs p
        = fsLookup fs0 p := by
  unfold process_long_text
  rw [if_pos hlen]
  cases hs : synth text out with
  | some audio =>
    refine ⟨rfl, ?_, rfl, ?_⟩
    · exact fsPathExists_write_mono _ _ _ _ (fsPathExists_pltFs1 out fs0)
    · intro p hp
      rw [fsLookup_write_ne _ _ _ _ (fun he => hp he.symm), fsLookup_pltFs1]
  | none =>
    refine ⟨rfl, fsPathExists_pltFs1 out fs0, rfl, ?_⟩
    intro p hp
    rw [fsLookup_pltFs1]

theorem short_path_single_call_witness :
    (process_long_text synthX ffmpegY ['h', 'i'] sampleOut emptyFS).calls
      = [(['h', 'i'], sampleOut)] ∧
    fsPathExists (process_long_text synthX ffmpegY ['h', 'i'] sampleOut
      emptyFS).fs (partsDirOf sampleOut) = true ∧
    (process_long_text synthX ffmpegY ['h', 'i'] sampleOut emptyFS).concatInput
      = none ∧
    fsLookup (process_long_text synthX ffmpegY ['h', 'i'] sampleOut emptyFS).fs
      ['z'] = fsLookup emptyFS ['z'] := by
  refine ⟨(short_path_single_call synthX ffmpegY ['h', 'i'] sampleOut emptyFS
      (by decide)).1,
    (short_path_single_call synthX ffmpegY ['h', 'i'] sampleOut emptyFS
      (by decide)).2.1,
    (short_path_single_call synthX ffmpegY ['h', 'i'] sampleOut emptyFS
      (by decide)).2.2.1,
    (short_path_single_call synthX ffmpegY ['h', 'i'] sampleOut emptyFS
      (by decide)).2.2.2 ['z'] (by decide)⟩

/-! ### Claim theorems: segmenter and presets -/

theorem concatAll_filter_ne_nil (L : List (List Char)) :
    concatAll (L.filter (fun s => !s.isEmpty)) = concatAll L := by
  induction L with
  | nil => rfl
  | cons l L ih =>
    rw [List.filter_cons]
    by_cases h : l = []
    · subst h; simpa using ih
    · rw [if_pos (by simpa [List.isEmpty_iff] using h)]
      simp [ih]

theorem filterNW_concatAll (L : List (List Char)) :
    filterNW (concatAll L) = concatAll (L.map filterNW) := by
  induction L with
  | nil => rfl
  | cons l L ih => simp [filterNW_append, ih]

/-- Chunk with 18 leading blanks, whose closing buffer reaches length 20 at
the terminator but strips down to only two characters. -/
def sampleSpacedText : List Char :=
  List.replicate 18 ' ' ++ ['a', '.', ' ', 'a', 'n', 'd', ' ', 'm', 'o', 'r', 'e']

/-- C1 (counterexample): the segmenter does NOT use a 250-character minimum:
on `sampleSpacedText` it closes a first, non-final segment of stripped length
2 (also below 20, because the 20-character comparison happens before
stripping), refuting both the 250-character threshold and the claimed length
bound on produced segments. -/
theorem splitSentences_closes_below_250 :
    (splitSentences sampleSpacedText).length = 2 ∧
    (splitSentences sampleSpacedText).headI.length = 2 ∧
    ¬ (250 ≤ (splitSentences sampleSpacedText).headI.length) := by decide

/-- C1 (amended): a segment is closed exactly when the character just
accumulated is one of `.`, `!`, `?` and the raw buffer (before stripping) has
length at least the hardcoded 20 — the `max_chunk_length` parameter with
default 250 is never read; consequently every non-final raw chunk has length
at least 20 and ends in a terminator, while the emitted segment is its strip
(and may be shorter). -/
theorem segmenter_threshold_twenty (text : List Char) :
    splitSentences text
      = ((chunkLoop 20 text []).map trimList).filter (fun s => !s.isEmpty) ∧
    ∀ s ∈ (chunkLoop 20 text []).dropLast,
      20 ≤ s.length ∧ ∃ l c, s = l ++ [c] ∧ isTerminator c = true :=
  ⟨segmentLoop_eq_chunkLoop 20 text [], chunkLoop_dropLast 20 text []⟩

theorem segmenter_threshold_twenty_witness :
    (splitSentences sampleText
      = ((chunkLoop 20 sampleText []).map trimList).filter (fun s => !s.isEmpty)) ∧
    (20 ≤ ((chunkLoop 20 sampleText []).headI).length ∧
      ∃ l c, (chunkLoop 20 sampleText []).headI = l ++ [c] ∧
        isTerminator c = true) :=
  ⟨(segmenter_threshold_twenty sampleText).1,
   (segmenter_threshold_twenty sampleText).2 _ (by decide)⟩

/-- C5: the segmenter yields non-empty segments that cover the input exactly
once: concatenated in order they reconstruct the input up to whitespace
trimmed at segment boundaries — every non-whitespace character appears
exactly once, in order. -/
theorem segmenter_covers_input (text : List Char) :
    (∀ s ∈ splitSentences text, s ≠ []) ∧
    filterNW (concatAll (splitSentences text)) = filterNW text := by
  constructor
  · intro s hs; exact (splitSentences_mem text s hs).1
  · rw [splitSentences, segmentLoop_eq_chunkLoop, concatAll_filter_ne_nil,
      filterNW_concatAll, List.map_map]
    have hco : (filterNW ∘ trimList) = filterNW := funext filterNW_trimList
    rw [hco, ← filterNW_concatAll, chunkLoop_concat, List.nil_append]

theorem segmenter_covers_input_witness :
    (splitSentences sampleText).headI ≠ [] ∧
    filterNW (concatAll (splitSentences sampleText)) = filterNW sampleText :=
  ⟨(segmenter_covers_input sampleText).1 _ (by decide),
   (segmenter_covers_input sampleText).2⟩

/-- C6: preset resolution starts from the neutral triple
{temperature 0.75, repetition_penalty 10.0, speed 1.0}, a named preset
replaces the whole base, and each explicitly supplied override then replaces
just its own field; in particular `expressive` with `speed := 1.5` gives
{0.85, 5.0, 1.5} and no preset with no overrides gives the neutral triple. -/
theorem preset_resolution :
    resolveGenParams (some .expressive) none none (some 1.5)
      = ⟨0.85, 5.0, 1.5⟩ ∧
    resolveGenParams none none none none = ⟨0.75, 10.0, 1.0⟩ ∧
    ∀ (p : Option PresetName) (t rp sp : Option Rat),
      resolveGenParams p t rp sp =
        ⟨t.getD (GENERATION_PRESETS (p.getD .neutral)).temperature,
         rp.getD (GENERATION_PRESETS (p.getD .neutral)).repetition_penalty,
         sp.getD (GENERATION_PRESETS (p.getD .neutral)).speed⟩ := by
  refine ⟨rfl, rfl, ?_⟩
  intro p t rp sp
  cases p <;> rfl

/-! ### Claim theorems: the command-line surface -/

/-- Invocations that argparse rejects before `main`'s own logic runs:
missing required `--reference`, or `parser.error` on neither/both of
`--text` and `--text_file`.  argparse terminates the process with exit
code 2 in these cases. -/
def argparseRejects (args : MainArgs) : Bool :=
  args.reference.isNone ||
    (!truthyOpt args.text && !truthyOpt args.text_file) ||
    (truthyOpt args.text && truthyOpt args.text_file)

/-- Input validation that `main` performs itself, each failure exiting with
code 1 before any synthesis work: unreadable text file, empty text,
missing reference audio or unsupported reference extension. -/
def inputRejected (args : MainArgs) (fs0 : FS) : Bool :=
  (truthyOpt args.text_file && (fsLookup fs0 (args.text_file.getD [])).isNone) ||
    (resolvedText args fs0).isEmpty ||
    !validate_reference_audio fs0 (args.reference.getD [])

def argsNoRef : MainArgs :=
  ⟨none, some ['h', 'i'], none, sampleOut, none, none, none, none⟩

/-- C7 (counterexample): an invocation with the required `--reference`
missing exits with argparse's code 2, not with code 1 as the claim states
(the output file does not exist, so the claim would demand exit code 1). -/
theorem missing_args_exit_code_two :
    (mainRun synthX ffmpegY none true ['t', 'm', 'p'] argsNoRef emptyFS).exit
      = 2 ∧
    fsPathExists (mainRun synthX ffmpegY none true ['t', 'm', 'p'] argsNoRef
      emptyFS).fs argsNoRef.output = false ∧
    (mainRun synthX ffmpegY none true ['t', 'm', 'p'] argsNoRef emptyFS).exit
      ≠ 1 := by
  decide

/-- C7 (amended): the exit code is 2 when argparse rejects the invocation
(missing required argument, neither or both text sources); otherwise 1 when
`main`'s own input validation fails (unreadable text file, empty text, bad
reference), without consulting the output file; otherwise it is 0 exactly
when the output file exists after the run and 1 otherwise. -/
theorem bool_eq_false {b : Bool} (h : ¬ b = true) : b = false := by
  cases b
  · rfl
  · exact absurd rfl h

/-- C7 (amended): the exit code is 2 when argparse rejects the invocation
(missing required argument, neither or both text sources); otherwise 1 when
`main`'s own input validation fails (unreadable text file, empty text, bad
reference), without consulting the output file; otherwise it is 0 exactly
when the output file exists after the run and 1 otherwise. -/
theorem exit_code_policy (synth : List Char -> List Char -> Option (List Char))
    (ffmpeg : List (List Char) -> Option (List Char))
    (convert : Option (List Char)) (loadOk : Bool) (tempPath : List Char)
    (args : MainArgs) (fs0 : FS) :
    (mainRun synth ffmpeg convert loadOk tempPath args fs0).exit =
      if argparseRejects args then 2
      else if inputRejected args fs0 then 1
      else if fsPathExists
          (mainRun synth ffmpeg convert loadOk tempPath args fs0).fs
          args.output then 0
      else 1 := by
  obtain ⟨oref, otext, otf, out, opre, otem, orep, ospe⟩ := args
  cases oref with
  | none => rfl
  | some ref =>
    by_cases hA : (!truthyOpt otext && !truthyOpt otf) = true
    · have hrun : mainRun synth ffmpeg convert loadOk tempPath
          ⟨some ref, otext, otf, out, opre, otem, orep, ospe⟩ fs0 = ⟨2, fs0⟩ := by
        simp only [mainRun]
        rw [if_pos hA]
      have harg : argparseRejects
          ⟨some ref, otext, otf, out, opre, otem, orep, ospe⟩ = true := by
        simp [argparseRejects, hA]
      rw [hrun, harg]
      rfl
    · by_cases hB : (truthyOpt otext && truthyOpt otf) = true
      · have hrun : mainRun synth ffmpeg convert loadOk tempPath
            ⟨some ref, otext, otf, out, opre, otem, orep, ospe⟩ fs0 = ⟨2, fs0⟩ := by
          simp only [mainRun]
          rw [if_neg hA, if_pos hB]
        have harg : argparseRejects
            ⟨some ref, otext, otf, out, opre, otem, orep, ospe⟩ = true := by
          simp [argparseRejects, hB]
        rw [hrun, harg]
        rfl
      · have harg : argparseRejects
            ⟨some ref, otext, otf, out, opre, otem, orep, ospe⟩ = false := by
          simp [argparseRejects, bool_eq_false hA, bool_eq_false hB]
        by_cases hC : (truthyOpt otf && (fsLookup fs0 (otf.getD [])).isNone) = true
        · have hrun : mainRun synth ffmpeg convert loadOk tempPath
              ⟨some ref, otext, otf, out, opre, otem, orep, ospe⟩ fs0 = ⟨1, fs0⟩ := by
            simp only [mainRun]
            rw [if_neg hA, if_neg hB, if_pos hC]
          have hrej : inputRejected
              ⟨some ref, otext, otf, out, opre, otem, orep, ospe⟩ fs0 = true := by
            simp [inputRejected, hC]
          rw [hrun, harg, hrej]
          rfl
        · by_cases hD : resolvedText
              ⟨some ref, otext, otf, out, opre, otem, orep, ospe⟩ fs0 = []
          · have hrun : mainRun synth ffmpeg convert loadOk tempPath
                ⟨some ref, otext, otf, out, opre, otem, orep, ospe⟩ fs0
                = ⟨1, fs0⟩ := by
              simp only [mainRun]
              rw [if_neg hA, if_neg hB, if_neg hC, if_pos hD]
            have hrej : inputRejected
                ⟨some ref, otext, otf, out, opre, otem, orep, ospe⟩ fs0 = true := by
              simp [inputRejected, hD]
            rw [hrun, harg, hrej]
            rfl
          · by_cases hE : (!validate_reference_audio fs0 ref) = true
            · have hrun : mainRun synth ffmpeg convert loadOk tempPath
                  ⟨some ref, otext, otf, out, opre, otem, orep, ospe⟩ fs0
                  = ⟨1, fs0⟩ := by
                simp only [mainRun]
                rw [if_neg hA, if_neg hB, if_neg hC, if_neg hD, if_pos hE]
              have hrej : inputRejected
                  ⟨some ref, otext, otf, out, opre, otem, orep, ospe⟩ fs0
                  = true := by
                simp [inputRejected, hE]
              rw [hrun, harg, hrej]
              rfl
            · have hrej : inputRejected
                  ⟨some ref, otext, otf, out, opre, otem, orep, ospe⟩ fs0
                  = false := by
                simp [inputRejected, bool_eq_false hC, bool_eq_false hE,
                  List.isEmpty_iff, hD]
              by_cases hex : fsPathExists
                  (mainTry synth ffmpeg convert loadOk tempPath ref out
                    (resolvedText ⟨some ref, otext, otf, out, opre, otem,
                      orep, ospe⟩ fs0)
                    (outDirStep ⟨some ref, otext, otf, out, opre, otem,
                      orep, ospe⟩ fs0)) out = true
              · have hrun : mainRun synth ffmpeg convert loadOk tempPath
                    ⟨some ref, otext, otf, out, opre, otem, orep, ospe⟩ fs0
                    = ⟨0, mainTry synth ffmpeg convert loadOk tempPath ref out
                        (resolvedText ⟨some ref, otext, otf, out, opre, otem,
                          orep, ospe⟩ fs0)
                        (outDirStep ⟨some ref, otext, otf, out, opre, otem,
                          orep, ospe⟩ fs0)⟩ := by
                  simp only [mainRun]
                  rw [if_neg hA, if_neg hB, if_neg hC, if_neg hD, if_neg hE,
                    if_pos hex]
                rw [hrun, harg, hrej]
                simp [hex]
              · have hrun : mainRun synth ffmpeg convert loadOk tempPath
                    ⟨some ref, otext, otf, out, opre, otem, orep, ospe⟩ fs0
                    = ⟨1, mainTry synth ffmpeg convert loadOk tempPath ref out
                        (resolvedText ⟨some ref, otext, otf, out, opre, otem,
                          orep, ospe⟩ fs0)
                        (outDirStep ⟨some ref, otext, otf, out, opre, otem,
                          orep, ospe⟩ fs0)⟩ := by
                  simp only [mainRun]
                  rw [if_neg hA, if_neg hB, if_neg hC, if_neg hD, if_neg hE,
                    if_neg hex]
                rw [hrun, harg, hrej]
                simp [bool_eq_false hex]

/-! ### Helper lemmas for the short-text path of `main` -/

theorem fsLookup_eq_none_of_not_exists (fs : FS) (p : List Char)
    (h : fsFileExists fs p = false) : fsLookup fs p = none := by
  rw [fsFileExists] at h
  cases hfl : fsLookup fs p with
  | none => rfl
  | some a => rw [hfl] at h; simp at h

theorem outDirStep_dirs (args : MainArgs) (fs0 : FS) :
    ∀ d ∈ (outDirStep args fs0).dirs, d ∈ fs0.dirs ∨ d = dirName args.output := by
  intro d hd
  unfold outDirStep at hd
  by_cases h : (!(dirName args.output).isEmpty
      && !fsPathExists fs0 (dirName args.output)) = true
  · rw [if_pos h] at hd
    rcases List.mem_cons.mp (by simpa using hd) with h1 | h1
    · exact Or.inr h1
    · exact Or.inl h1
  · rw [if_neg h] at hd
    exact Or.inl hd

theorem outDirStep_lookup (args : MainArgs) (fs0 : FS) (p : List Char) :
    fsLookup (outDirStep args fs0) p = fsLookup fs0 p := by
  unfold outDirStep
  split <;> rfl

theorem outDirStep_fileExists (args : MainArgs) (fs0 : FS) (p : List Char) :
    fsFileExists (outDirStep args fs0) p = fsFileExists fs0 p := by
  unfold outDirStep
  split <;> rfl

theorem autoConvertFS_dirs (convert : Option (List Char))
    (tempPath ref : List Char) (fs1 : FS) :
    (autoConvertFS convert tempPath ref fs1).dirs = fs1.dirs := by
  unfold autoConvertFS
  split
  · rfl
  · cases convert <;> rfl

theorem autoConvertFS_lookup (convert : Option (List Char))
    (tempPath ref : List Char) (fs1 : FS) (p : List Char) (hp : p ≠ tempPath) :
    fsLookup (autoConvertFS convert tempPath ref fs1) p = fsLookup fs1 p := by
  unfold autoConvertFS
  split
  · rfl
  · cases convert with
    | none => rfl
    | some audio => exact fsLookup_write_ne _ _ _ _ (fun he => hp he.symm)

theorem synthStepFS_dirs_short (synth : List Char -> List Char -> Option (List Char))
    (ffmpeg : List (List Char) -> Option (List Char)) (loadOk : Bool)
    (text out : List Char) (fs2 : FS) (hlen : text.length ≤ 500) :
    (synthStepFS synth ffmpeg loadOk text out fs2).dirs = fs2.dirs := by
  unfold synthStepFS
  by_cases hl : (!loadOk) = true
  · rw [if_pos hl]
  · rw [if_neg hl, if_neg (Nat.not_lt.mpr hlen)]
    cases synth text out <;> rfl

theorem synthStepFS_lookup_short (synth : List Char -> List Char -> Option (List Char))
    (ffmpeg : List (List Char) -> Option (List Char)) (loadOk : Bool)
    (text out : List Char) (fs2 : FS) (p : List Char) (hp : p ≠ out)
    (hlen : text.length ≤ 500) :
    fsLookup (synthStepFS synth ffmpeg loadOk text out fs2) p
      = fsLookup fs2 p := by
  unfold synthStepFS
  by_cases hl : (!loadOk) = true
  · rw [if_pos hl]
  · rw [if_neg hl, if_neg (Nat.not_lt.mpr hlen)]
    cases synth text out with
    | none => rfl
    | some audio => exact fsLookup_write_ne _ _ _ _ (fun he => hp he.symm)

theorem mainTry_dirs_short (synth : List Char -> List Char -> Option (List Char))
    (ffmpeg : List (List Char) -> Option (List Char))
    (convert : Option (List Char)) (loadOk : Bool)
    (tempPath ref out text : List Char) (fs1 : FS) (hlen : text.length ≤ 500) :
    (mainTry synth ffmpeg convert loadOk tempPath ref out text fs1).dirs
      = fs1.dirs := by
  unfold mainTry
  split
  · rw [fsRemove_dirs, synthStepFS_dirs_short synth ffmpeg loadOk text out _ hlen,
      autoConvertFS_dirs]
  · rw [synthStepFS_dirs_short synth ffmpeg loadOk text out _ hlen,
      autoConvertFS_dirs]

theorem mainTry_lookup_other (synth : List Char -> List Char -> Option (List Char))
    (ffmpeg : List (List Char) -> Option (List Char))
    (convert : Option (List Char)) (loadOk : Bool)
    (tempPath ref out text : List Char) (fs1 : FS) (hlen : text.length ≤ 500)
    (p : List Char) (hpo : p ≠ out) (hpt : p ≠ tempPath) :
    fsLookup (mainTry synth ffmpeg convert loadOk tempPath ref out text fs1) p
      = fsLookup fs1 p := by
  unfold mainTry
  split
  · rw [fsLookup_remove_ne _ _ _ (fun he => hpt he.symm),
      synthStepFS_lookup_short synth ffmpeg loadOk text out _ p hpo hlen,
      autoConvertFS_lookup convert tempPath ref fs1 p hpt]
  · rw [synthStepFS_lookup_short synth ffmpeg loadOk text out _ p hpo hlen,
      autoConvertFS_lookup convert tempPath ref fs1 p hpt]

theorem mainTry_lookup_temp (synth : List Char -> List Char -> Option (List Char))
    (ffmpeg : List (List Char) -> Option (List Char))
    (convert : Option (List Char)) (loadOk : Bool)
    (tempPath ref out text : List Char) (fs1 : FS) (hlen : text.length ≤ 500)
    (hfresh : fsFileExists fs1 tempPath = false) (hto : tempPath ≠ out) :
    fsLookup (mainTry synth ffmpeg convert loadOk tempPath ref out text fs1)
      tempPath = none := by
  unfold mainTry
  by_cases hw : endsWithWav ref = true
  · have h1 : autoConvertIsTemp convert ref = false := by
      unfold autoConvertIsTemp; rw [if_pos hw]
    have h2 : autoConvertFS convert tempPath ref fs1 = fs1 := by
      unfold autoConvertFS; rw [if_pos hw]
    rw [h1, h2]
    simp only [Bool.false_and]
    rw [if_neg Bool.false_ne_true,
      synthStepFS_lookup_short synth ffmpeg loadOk text out fs1 tempPath hto hlen]
    exact fsLookup_eq_none_of_not_exists fs1 tempPath hfresh
  · cases convert with
    | none =>
      have h1 : autoConvertIsTemp none ref = false := by
        unfold autoConvertIsTemp; rw [if_neg hw]
      have h2 : autoConvertFS none tempPath ref fs1 = fs1 := by
        unfold autoConvertFS; rw [if_neg hw]
      rw [h1, h2]
      simp only [Bool.false_and]
      rw [if_neg Bool.false_ne_true,
        synthStepFS_lookup_short synth ffmpeg loadOk text out fs1 tempPath hto hlen]
      exact fsLookup_eq_none_of_not_exists fs1 tempPath hfresh
    | some audio =>
      have h1 : autoConvertIsTemp (some audio) ref = true := by
        unfold autoConvertIsTemp; rw [if_neg hw]
      have h2 : autoConvertFS (some audio) tempPath ref fs1
          = fsWrite fs1 tempPath audio := by
        unfold autoConvertFS; rw [if_neg hw]
      have h3 : fsLookup (synthStepFS synth ffmpeg loadOk text out
          (fsWrite fs1 tempPath audio)) tempPath = some audio := by
        rw [synthStepFS_lookup_short synth ffmpeg loadOk text out _ tempPath hto hlen]
        exact fsLookup_write_self fs1 tempPath audio
      have h5 : fsFileExists (synthStepFS synth ffmpeg loadOk text out
          (fsWrite fs1 tempPath audio)) tempPath = true := by
        rw [fsFileExists, h3]; rfl
      rw [h1, h2, h5]
      simp only [Bool.and_self, if_true]
      exact fsLookup_remove_self _ _

theorem mainRun_fs_cases (synth : List Char -> List Char -> Option (List Char))
    (ffmpeg : List (List Char) -> Option (List Char))
    (convert : Option (List Char)) (loadOk : Bool) (tempPath : List Char)
    (args : MainArgs) (fs0 : FS) :
    (mainRun synth ffmpeg convert loadOk tempPath args fs0).fs = fs0 ∨
    (mainRun synth ffmpeg convert loadOk tempPath args fs0).fs
      = mainTry synth ffmpeg convert loadOk tempPath (args.reference.getD [])
          args.output (resolvedText args fs0) (outDirStep args fs0) := by
  obtain ⟨oref, otext, otf, out, opre, otem, orep, ospe⟩ := args
  cases oref with
  | none => exact Or.inl rfl
  | some ref =>
    simp only [mainRun, Option.getD_some]
    split
    · exact Or.inl rfl
    · split
      · exact Or.inl rfl
      · split
        · exact Or.inl rfl
        · split
          · exact Or.inl rfl
          · split
            · exact Or.inl rfl
            · split
              · exact Or.inr rfl
              · exact Or.inr rfl

/-- C8: for any invocation whose (original, pre-segmentation) text has at
most 500 characters, the run never creates a staging directory — the only
directory possibly created is the output file's parent — and the only file
written is the output file itself. -/
theorem short_text_no_staging (synth : List Char -> List Char -> Option (List Char))
    (ffmpeg : List (List Char) -> Option (List Char))
    (convert : Option (List Char)) (loadOk : Bool) (tempPath : List Char)
    (args : MainArgs) (fs0 : FS)
    (hlen : (resolvedText args fs0).length ≤ 500)
    (htemp : fsFileExists fs0 tempPath = false)
    (htout : tempPath ≠ args.output) :
    (∀ d ∈ (mainRun synth ffmpeg convert loadOk tempPath args fs0).fs.dirs,
      d ∈ fs0.dirs ∨ d = dirName args.output) ∧
    (partsDirOf args.output ∉ fs0.dirs →
      partsDirOf args.output ∉
        (mainRun synth ffmpeg convert loadOk tempPath args fs0).fs.dirs) ∧
    (∀ p, p ≠ args.output →
      fsLookup (mainRun synth ffmpeg convert loadOk tempPath args fs0).fs p
        = fsLookup fs0 p) := by
  have hdirs : ∀ d ∈ (mainRun synth ffmpeg convert loadOk tempPath args fs0).fs.dirs,
      d ∈ fs0.dirs ∨ d = dirName args.output := by
    rcases mainRun_fs_cases synth ffmpeg convert loadOk tempPath args fs0 with h | h
    · rw [h]; exact fun d hd => Or.inl hd
    · rw [h, mainTry_dirs_short synth ffmpeg convert loadOk tempPath _ _ _ _ hlen]
      exact outDirStep_dirs args fs0
  refine ⟨hdirs, ?_, ?_⟩
  · intro hnot hmem
    rcases hdirs _ hmem with h1 | h1
    · exact hnot h1
    · exact partsDirOf_ne_dirName args.output h1
  · intro p hp
    rcases mainRun_fs_cases synth ffmpeg convert loadOk tempPath args fs0 with h | h
    · rw [h]
    · rw [h]
      by_cases hpt : p = tempPath
      · subst hpt
        rw [mainTry_lookup_temp synth ffmpeg convert loadOk p _ _ _ _ hlen
          (by rw [outDirStep_fileExists]; exact htemp) htout]
        exact (fsLookup_eq_none_of_not_exists fs0 p htemp).symm
      · rw [mainTry_lookup_other synth ffmpeg convert loadOk tempPath _ _ _ _
          hlen p hp hpt, outDirStep_lookup]

def refWav : List Char := ['r', '.', 'w', 'a', 'v']

def argsFull : MainArgs :=
  ⟨some refWav, some ['h', 'e', 'l', 'l', 'o'], none, sampleOut, none, none,
    none, none⟩

def fsWithRef : FS := ⟨[(refWav, ['r'])], []⟩

theorem short_text_no_staging_witness :
    (['o'] ∈ fsWithRef.dirs ∨ ['o'] = dirName argsFull.output) ∧
    partsDirOf argsFull.output ∉
      (mainRun synthX ffmpegY none true ['t', 'm', 'p'] argsFull
        fsWithRef).fs.dirs ∧
    fsLookup (mainRun synthX ffmpegY none true ['t', 'm', 'p'] argsFull
      fsWithRef).fs ['z'] = fsLookup fsWithRef ['z'] := by
  refine ⟨(short_text_no_staging synthX ffmpegY none true ['t', 'm', 'p']
      argsFull fsWithRef (by decide) (by decide) (by decide)).1 ['o'] (by decide),
    (short_text_no_staging synthX ffmpegY none true ['t', 'm', 'p']
      argsFull fsWithRef (by decide) (by decide) (by decide)).2.1 (by decide),
    (short_text_no_staging synthX ffmpegY none true ['t', 'm', 'p']
      argsFull fsWithRef (by decide) (by decide) (by decide)).2.2 ['z'] (by decide)⟩

end VoiceClone
